import Mathlib

/-!
Verification of the CAVI Gaussian-mixture inference engine
(`pyInference/mixtureOfGaussians/gmm_cavi.py`).

The Python functions are shallowly embedded over the reals.  The program's
linear algebra is hard-wired to `D = 2` (2x2 accumulators inside
`update_lambda_m`, `update_lambda_W` and `elbo`, and a 2x2 prior `W_o` in
`main`), so vectors are `Fin 2 → ℝ` and matrices `Fin 2 → Fin 2 → ℝ`
throughout the core; a separate shape-aware model (`NpArr`) captures the
numpy broadcasting failures that occur when `update_lambda_W` is fed data of
another dimension.  Floating-point numbers are modelled as reals; the
float32 machine epsilon `np.finfo(np.float32).eps` that the source adds in
`softmax` and `dirichlet_expectation` is kept as the exact rational 2⁻²³.
-/

namespace GMMCavi

noncomputable section

/-- `np.finfo(np.float32).eps`, exactly `2⁻²³`. -/
def eps32 : ℝ := 1 / 8388608

/-- `THRESHOLD = 1e-10` (gmm_cavi.py line 38), the ELBO-delta convergence
threshold of the main loop. -/
def THRESHOLD : ℝ := 1 / 10 ^ 10

/-- Dot product of two real vectors (`np.dot` on 1-D arrays). -/
def dotV {n : ℕ} (a b : Fin n → ℝ) : ℝ := ∑ i, a i * b i

/-- Matrix–vector product (`np.dot(M, v)`). -/
def matVec {n m : ℕ} (M : Fin n → Fin m → ℝ) (v : Fin m → ℝ) : Fin n → ℝ :=
  fun i => ∑ j, M i j * v j

/-- Vector–matrix product (`np.dot(v, M)` with `v` 1-D, i.e. `vᵀM`). -/
def vecMat {n m : ℕ} (v : Fin n → ℝ) (M : Fin n → Fin m → ℝ) : Fin m → ℝ :=
  fun j => ∑ i, v i * M i j

/-- Matrix–matrix product (`np.dot` on 2-D arrays). -/
def matMul {n m p : ℕ} (A : Fin n → Fin m → ℝ) (B : Fin m → Fin p → ℝ) :
    Fin n → Fin p → ℝ :=
  fun i j => ∑ k, A i k * B k j

/-- Trace of a square matrix (`np.trace`). -/
def traceM {n : ℕ} (A : Fin n → Fin n → ℝ) : ℝ := ∑ i, A i i

/-- Outer product of two vectors (`np.outer`). -/
def outerV {n m : ℕ} (a : Fin n → ℝ) (b : Fin m → ℝ) : Fin n → Fin m → ℝ :=
  fun i j => a i * b j

/-- Scalar multiple of a matrix. -/
def smulM {n m : ℕ} (c : ℝ) (A : Fin n → Fin m → ℝ) : Fin n → Fin m → ℝ :=
  fun i j => c * A i j

/-- Determinant of a 2x2 matrix (`np.linalg.det` at the program's `D = 2`). -/
def det2 (A : Fin 2 → Fin 2 → ℝ) : ℝ := A 0 0 * A 1 1 - A 0 1 * A 1 0

/-- Inverse of a 2x2 matrix by the adjugate formula; this is the exact value
`np.linalg.inv` computes whenever `det2 A ≠ 0` (`inv` raises on a singular
input, which none of the verified claims exercises). -/
def inv2 (A : Fin 2 → Fin 2 → ℝ) : Fin 2 → Fin 2 → ℝ :=
  fun i j =>
    (1 / det2 A) *
      (if i = 0 then (if j = 0 then A 1 1 else -(A 0 1))
       else (if j = 0 then -(A 1 0) else A 0 0))

/-- The digamma function ψ (`scipy.special.psi`), as Γ'/Γ.  It only enters
the verified statements as an opaque concrete function: every settled
property holds for arbitrary ψ, so no analytic fact about it is used. -/
noncomputable def digamma (x : ℝ) : ℝ := deriv Real.Gamma x / Real.Gamma x

/-- `dirichlet_expectation` (lines 42–47):
`psi(alpha[k] + eps32) - psi(sum(alpha))`.  The digamma function `psi` is a
parameter of the embedding. -/
def dirichlet_expectation (psi : ℝ → ℝ) {K : ℕ} (alpha : Fin K → ℝ)
    (k : Fin K) : ℝ :=
  psi (alpha k + eps32) - psi (∑ i, alpha i)

/-- `np.max` over a nonempty vector. -/
def maxV {K : ℕ} (x : Fin (K + 1) → ℝ) : ℝ :=
  Finset.univ.sup' ⟨0, Finset.mem_univ 0⟩ x

/-- `softmax` (lines 50–57): subtract the row max, exponentiate, and divide
with the float32 epsilon added to numerator and denominator. -/
noncomputable def softmax {K : ℕ} (x : Fin (K + 1) → ℝ) : Fin (K + 1) → ℝ :=
  fun i =>
    (Real.exp (x i - maxV x) + eps32) /
      ((∑ j, Real.exp (x j - maxV x)) + eps32)

/-- `Nks = np.sum(lambda_phi, axis=0)` (line 294): expected membership
count of each component. -/
def Nks {N K : ℕ} (lambda_phi : Fin N → Fin K → ℝ) : Fin K → ℝ :=
  fun k => ∑ n, lambda_phi n k

/-- `update_lambda_pi` (lines 60–67): `alpha_o[k] + Σ_n lambda_phi[n,k]`. -/
def update_lambda_pi {N K : ℕ} (lambda_phi : Fin N → Fin K → ℝ)
    (alpha_o : Fin K → ℝ) : Fin K → ℝ :=
  fun k => alpha_o k + ∑ n, lambda_phi n k

/-- `update_lambda_beta` (lines 70–77): `beta_o + Nks[k]`. -/
def update_lambda_beta {K : ℕ} (beta_o : ℝ) (nks : Fin K → ℝ) : Fin K → ℝ :=
  fun k => beta_o + nks k

/-- `update_lambda_nu` (lines 80–87): `nu_o + Nks[k]`. -/
def update_lambda_nu {K : ℕ} (nu_o : ℝ) (nks : Fin K → ℝ) : Fin K → ℝ :=
  fun k => nu_o + nks k

/-- `update_lambda_m` (lines 90–100).  The source's accumulator
`aux = np.array([0., 0.])` fixes `D = 2`. -/
def update_lambda_m {N K : ℕ} (lambda_phi : Fin N → Fin K → ℝ)
    (lambda_beta : Fin K → ℝ) (m_o : Fin 2 → ℝ) (beta_o : ℝ)
    (xn : Fin N → Fin 2 → ℝ) : Fin K → Fin 2 → ℝ :=
  fun k d => (m_o d * beta_o + ∑ n, lambda_phi n k * xn n d) / lambda_beta k

/-- `update_lambda_W` (lines 103–117) in the shape-correct case `D = 2`
(the accumulator `aux = np.array([[0., 0.], [0., 0.]])` fixes `D = 2`; the
shape-aware model `np_update_lambda_W_k` below covers the other dimensions):
`W_o + np.outer(beta_o * m_o, m_o) + Σ_n lambda_phi[n,k] * xn_xnt[n]
 - np.outer(lambda_beta[k] * lambda_m[k], lambda_m[k])`. -/
def update_lambda_W2 {N K : ℕ} (lambda_phi : Fin N → Fin K → ℝ)
    (lambda_beta : Fin K → ℝ) (lambda_m : Fin K → Fin 2 → ℝ)
    (W_o : Fin 2 → Fin 2 → ℝ) (beta_o : ℝ) (m_o : Fin 2 → ℝ)
    (xn_xnt : Fin N → Fin 2 → Fin 2 → ℝ) : Fin K → Fin 2 → Fin 2 → ℝ :=
  fun k i j =>
    W_o i j + outerV (fun d => beta_o * m_o d) m_o i j +
        (∑ n, lambda_phi n k * xn_xnt n i j) -
      outerV (fun d => lambda_beta k * lambda_m k d) (lambda_m k) i j

/-- Lines 136–137 of `update_lambda_phi`: the precision-weighted mean term
`np.dot(lambda_m[k], np.dot(lambda_nu[k] * inv(lambda_W[k]), xn[n]))`. -/
def phiT1 (m : Fin 2 → ℝ) (nu : ℝ) (W : Fin 2 → Fin 2 → ℝ)
    (x : Fin 2 → ℝ) : ℝ :=
  dotV m (matVec (smulM nu (inv2 W)) x)

/-- Lines 138–140 of `update_lambda_phi` (the subtracted quantity): the
expected half-precision quadratic term
`np.trace(np.dot((1/2) * lambda_nu[k] * inv(lambda_W[k]),
np.outer(xn[n], xn[n])))`. -/
def phiT2 (nu : ℝ) (W : Fin 2 → Fin 2 → ℝ) (x : Fin 2 → ℝ) : ℝ :=
  traceM (matMul (smulM (1 / 2 * nu) (inv2 W)) (outerV x x))

/-- Lines 141–144 of `update_lambda_phi` (the subtracted quantity): the
beta and quadratic mean term `(D/2) * (1/lambda_beta[k]) +
(1/2) * np.dot(np.dot(lambda_nu[k] * lambda_m[k], inv(lambda_W[k])),
lambda_m[k])`, at the program's `D = 2`. -/
def phiT3 (m : Fin 2 → ℝ) (nu : ℝ) (W : Fin 2 → Fin 2 → ℝ) (beta : ℝ) : ℝ :=
  (2 : ℝ) / 2 * (1 / beta) +
    1 / 2 * dotV (vecMat (fun d => nu * m d) (inv2 W)) m

/-- Lines 145–148 of `update_lambda_phi`: the expected log-determinant term
`(D/2) * log 2 + (1/2) * Σ_{i<D} psi(lambda_nu[k]/2 + (1-i)/2)
 - (1/2) * log(det(lambda_W[k]))`, at the program's `D = 2`. -/
def phiT4 (psi : ℝ → ℝ) (nu : ℝ) (W : Fin 2 → Fin 2 → ℝ) : ℝ :=
  (2 : ℝ) / 2 * Real.log 2 +
      1 / 2 * ∑ i : Fin 2, psi (nu / 2 + (1 - (i : ℕ)) / 2) -
    1 / 2 * Real.log (det2 W)

/-- The log-space score accumulated into `lambda_phi[n, k]` by lines
135–148 before the row softmax. -/
def phiScore (psi : ℝ → ℝ) {K : ℕ} (lambda_pi : Fin K → ℝ)
    (lambda_m : Fin K → Fin 2 → ℝ) (lambda_nu : Fin K → ℝ)
    (lambda_W : Fin K → Fin 2 → Fin 2 → ℝ) (lambda_beta : Fin K → ℝ)
    (x : Fin 2 → ℝ) (k : Fin K) : ℝ :=
  dirichlet_expectation psi lambda_pi k +
        phiT1 (lambda_m k) (lambda_nu k) (lambda_W k) x -
      phiT2 (lambda_nu k) (lambda_W k) x -
    phiT3 (lambda_m k) (lambda_nu k) (lambda_W k) (lambda_beta k) +
  phiT4 psi (lambda_nu k) (lambda_W k)

/-- `update_lambda_phi` (lines 120–150): fill each row with the log-space
scores, then renormalize the row through `softmax`. -/
noncomputable def update_lambda_phi (psi : ℝ → ℝ) {N K : ℕ}
    (lambda_pi : Fin (K + 1) → ℝ) (lambda_m : Fin (K + 1) → Fin 2 → ℝ)
    (lambda_nu : Fin (K + 1) → ℝ)
    (lambda_W : Fin (K + 1) → Fin 2 → Fin 2 → ℝ)
    (lambda_beta : Fin (K + 1) → ℝ) (xn : Fin N → Fin 2 → ℝ) :
    Fin N → Fin (K + 1) → ℝ :=
  fun n =>
    softmax (fun k =>
      phiScore psi lambda_pi lambda_m lambda_nu lambda_W lambda_beta (xn n) k)

/-- The four entries of `NIW_sufficient_statistics` (lines 153–170), of
their heterogeneous numpy types (vector, matrix, scalar, scalar). -/
structure NIWss where
  t0 : Fin 2 → ℝ
  t1 : Fin 2 → Fin 2 → ℝ
  t2 : ℝ
  t3 : ℝ

/-- `NIW_sufficient_statistics` (lines 153–170) for one component, at the
program's `D = 2`:
`[nu * inv(W) @ m, (-1/2) * nu * inv(W),
  (-D/2) * (1/beta) - (1/2) * nu * (m @ inv(W) @ m),
  (D/2) * log 2 + (1/2) * Σ psi(nu/2 + (1-i)/2) - (1/2) * log det W]`. -/
def NIW_sufficient_statistics (psi : ℝ → ℝ) (nu : ℝ)
    (W : Fin 2 → Fin 2 → ℝ) (m : Fin 2 → ℝ) (beta : ℝ) : NIWss where
  t0 := matVec (smulM nu (inv2 W)) m
  t1 := smulM (-1 / 2 * nu) (inv2 W)
  t2 := -(2 : ℝ) / 2 * (1 / beta) -
    1 / 2 * nu * dotV (vecMat m (inv2 W)) m
  t3 := (2 : ℝ) / 2 * Real.log 2 +
      1 / 2 * ∑ i : Fin 2, psi (nu / 2 + (1 - (i : ℕ)) / 2) -
    1 / 2 * Real.log (det2 W)

/-- The per-component entropy term of `elbo` (line 212):
`np.dot(np.log(lambda_phi[:, k]), lambda_phi[:, k])`. -/
noncomputable def elbo_entropy {N K : ℕ} (lambda_phi : Fin N → Fin K → ℝ)
    (k : Fin K) : ℝ :=
  ∑ n, Real.log (lambda_phi n k) * lambda_phi n k

/-- `init_kmeans` (lines 240–248).  The hard labels come from the external
`sklearn` KMeans collaborator and are a parameter.  The Python scalar
division `0.1 / (K - 1)` raises `ZeroDivisionError` when `K = 1`, modelled
by `none`. -/
def init_kmeans (K N : ℕ) (labels : Fin N → Fin K) :
    Option (Fin N → Fin K → ℝ) :=
  if K = 1 then none
  else some fun n k =>
    if k = labels n then 9 / 10 else 1 / 10 / ((K : ℝ) - 1)

/-- The hard-coded prior scale matrix of `main` (line 264):
`W_o = np.array([[20., 30.], [25., 40.]])`.  Note it is not symmetric. -/
def W_o_main : Fin 2 → Fin 2 → ℝ :=
  fun i j =>
    if i = 0 then (if j = 0 then 20 else 30) else (if j = 0 then 25 else 40)

/-- The hard-coded prior mean of `main` (line 265): `m_o = [0., 0.]`. -/
def m_o_main : Fin 2 → ℝ := fun _ => 0

/-- The variational state mutated by the sweep (lines 268–275). -/
structure VState (N K : ℕ) where
  lambda_pi : Fin K → ℝ
  lambda_beta : Fin K → ℝ
  lambda_nu : Fin K → ℝ
  lambda_m : Fin K → Fin 2 → ℝ
  lambda_W : Fin K → Fin 2 → Fin 2 → ℝ
  lambda_phi : Fin N → Fin K → ℝ

/-- One coordinate-ascent sweep, composing the six updates exactly as the
loop body does (lines 293–303); `xn_xnt[n] = np.outer(xn[n], xn[n])` is
precomputed as at line 277. -/
noncomputable def cavi_sweep (psi : ℝ → ℝ) {N K : ℕ}
    (alpha_o : Fin (K + 1) → ℝ) (beta_o nu_o : ℝ) (m_o : Fin 2 → ℝ)
    (W_o : Fin 2 → Fin 2 → ℝ) (xn : Fin N → Fin 2 → ℝ)
    (s : VState N (K + 1)) : VState N (K + 1) :=
  let lambda_pi := update_lambda_pi s.lambda_phi alpha_o
  let nks := Nks s.lambda_phi
  let lambda_beta := update_lambda_beta beta_o nks
  let lambda_nu := update_lambda_nu nu_o nks
  let lambda_m := update_lambda_m s.lambda_phi lambda_beta m_o beta_o xn
  let lambda_W := update_lambda_W2 s.lambda_phi lambda_beta lambda_m W_o
    beta_o m_o (fun n => outerV (xn n) (xn n))
  let lambda_phi := update_lambda_phi psi lambda_pi lambda_m lambda_nu
    lambda_W lambda_beta xn
  ⟨lambda_pi, lambda_beta, lambda_nu, lambda_m, lambda_W, lambda_phi⟩

/-- How the inference loop of `main` (lines 290–328) ended: through the
break condition of line 326, or by exhausting `range(MAX_ITERS)`. -/
inductive StopReason
  | converged
  | budgetExhausted
deriving DecidableEq

/-- What a run leaves behind (cf. lines 288–310 and 330–340): the final
variational state, the ELBO trace `lbs`, the iteration count `n_iters`
and the way the loop stopped. -/
structure LoopResult (σ : Type*) where
  state : σ
  lbs : List ℝ
  nIters : ℕ
  reason : StopReason

open scoped Classical in
/-- The body recursion of the `for i in range(MAX_ITERS)` loop of `main`
(lines 290–328), generic in the state type: `sweep` is the block of six
updates (lines 293–303) and `eV` the `elbo` call (lines 306–308).  `fuel`
is the number of remaining loop indices, `prev` the previously appended
ELBO `lbs[i-1]` (`none` on the first iteration, so the `i > 0` guard of
line 326 is the `match`), `lbs` and `n` the trace and count so far. -/
def caviLoopAux {σ : Type*} (sweep : σ → σ) (eV : σ → ℝ) :
    ℕ → σ → Option ℝ → List ℝ → ℕ → LoopResult σ
  | 0, s, _, lbs, n => ⟨s, lbs, n, .budgetExhausted⟩
  | fuel + 1, s, prev, lbs, n =>
    let s' := sweep s
    let lb := eV s'
    if (match prev with
        | some p => |lb - p| < THRESHOLD
        | none => False) then
      ⟨s', lbs ++ [lb], n + 1, .converged⟩
    else
      caviLoopAux sweep eV fuel s' (some lb) (lbs ++ [lb]) (n + 1)

/-- The full inference loop of `main`: run `caviLoopAux` from the initial
state with an empty trace and `maxIters` iterations of budget. -/
def caviRun {σ : Type*} (sweep : σ → σ) (eV : σ → ℝ) (maxIters : ℕ)
    (s0 : σ) : LoopResult σ :=
  caviLoopAux sweep eV maxIters s0 none [] 0

/-- A 2-D numpy array: a shape together with a total entry function
(meaningful on `[0, r) × [0, c)`). -/
structure NpArr where
  r : ℕ
  c : ℕ
  e : ℕ → ℕ → ℝ

/-- Index adjustment of numpy broadcasting: a length-1 axis is read at 0. -/
def bi (d i : ℕ) : ℕ := if d = 1 then 0 else i

/-- numpy broadcast of one axis: the lengths must be equal or one of them
must be 1, otherwise the operation raises a shape error. -/
def bdim (a b : ℕ) : Option ℕ :=
  if a = b then some a else if a = 1 then some b
  else if b = 1 then some a else none

/-- Elementwise addition of 2-D numpy arrays with broadcasting; `none`
models the `ValueError` raised on incompatible shapes. -/
def npAdd (A B : NpArr) : Option NpArr :=
  match bdim A.r B.r, bdim A.c B.c with
  | some rr, some cc =>
    some ⟨rr, cc, fun i j =>
      A.e (bi A.r i) (bi A.c j) + B.e (bi B.r i) (bi B.c j)⟩
  | _, _ => none

/-- Elementwise subtraction of 2-D numpy arrays with broadcasting. -/
def npSub (A B : NpArr) : Option NpArr :=
  match bdim A.r B.r, bdim A.c B.c with
  | some rr, some cc =>
    some ⟨rr, cc, fun i j =>
      A.e (bi A.r i) (bi A.c j) - B.e (bi B.r i) (bi B.c j)⟩
  | _, _ => none

/-- Scalar times array. -/
def npSmul (a : ℝ) (A : NpArr) : NpArr := ⟨A.r, A.c, fun i j => a * A.e i j⟩

/-- `np.zeros((r, c))`. -/
def npZeros (r c : ℕ) : NpArr := ⟨r, c, fun _ _ => 0⟩

/-- `np.outer` of two length-`D` vectors. -/
def npOuterV (D : ℕ) (u v : ℕ → ℝ) : NpArr := ⟨D, D, fun i j => u i * v j⟩

/-- The body of `update_lambda_W` (lines 110–116) for one component `k`,
with numpy shape semantics.  The accumulator starts as the hard-coded 2x2
zero matrix of line 111 whatever `D` is; each loop step adds
`lambda_phi[n, k] * xn_xnt[n]`, and the result is
`W_o + np.outer(beta_o * m_o, m_o) + aux
 - np.outer(lambda_beta[k] * lambda_m[k], lambda_m[k])`,
any step returning `none` when numpy would raise a shape error. -/
def np_update_lambda_W_k (D N : ℕ) (phi_k : ℕ → ℝ) (lambda_beta_k : ℝ)
    (lambda_m_k : ℕ → ℝ) (W_o : NpArr) (beta_o : ℝ) (m_o : ℕ → ℝ)
    (xn_xnt : ℕ → NpArr) : Option NpArr :=
  ((List.range N).foldlM
      (fun a n => npAdd a (npSmul (phi_k n) (xn_xnt n))) (npZeros 2 2)).bind
    fun aux =>
      (npAdd W_o (npOuterV D (fun i => beta_o * m_o i) m_o)).bind
        fun s1 =>
          (npAdd s1 aux).bind
            fun s2 =>
              npSub s2
                (npOuterV D (fun i => lambda_beta_k * lambda_m_k i)
                  lambda_m_k)

/-- Modelled from the spec: the closed-form posterior scale matrix of §4.2
update 5, for an arbitrary dimension `D` —
`lambda_W[k] = W_o + beta_o * outer(m_o, m_o)
 + Σ_n lambda_phi[n,k] * outer(x_n, x_n)
 - lambda_beta[k] * outer(lambda_m[k], lambda_m[k])`.
This definition follows the spec's words; the source's `update_lambda_W`
is the separate `np_update_lambda_W_k` above, to be compared with it. -/
def spec_lambda_W (N : ℕ) (phi_k : ℕ → ℝ) (lambda_beta_k : ℝ)
    (lambda_m_k : ℕ → ℝ) (W_o : ℕ → ℕ → ℝ) (beta_o : ℝ) (m_o : ℕ → ℝ)
    (xn : ℕ → ℕ → ℝ) : ℕ → ℕ → ℝ :=
  fun i j =>
    W_o i j + beta_o * (m_o i * m_o j) +
        (∑ n ∈ Finset.range N, phi_k n * (xn n i * xn n j)) -
      lambda_beta_k * (lambda_m_k i * lambda_m_k j)

/-- A one-point, one-component evaluation scenario: full responsibility on
the single component. -/
def phiOnePoint : Fin 1 → Fin 1 → ℝ := fun _ _ => 1

/-- The corresponding dataset: the single point `(0, 0)`. -/
def xnOnePoint : Fin 1 → Fin 2 → ℝ := fun _ _ => 0

/-- `lambda_W` after one sweep of updates 2, 4 and 5 on `xnOnePoint` with
the hard-coded priors of `main` (`W_o_main`, `m_o_main`,
`beta_o = 0.7`). -/
def lambda_W_OnePoint : Fin 1 → Fin 2 → Fin 2 → ℝ :=
  update_lambda_W2 phiOnePoint
    (update_lambda_beta (7 / 10) (Nks phiOnePoint))
    (update_lambda_m phiOnePoint
      (update_lambda_beta (7 / 10) (Nks phiOnePoint))
      m_o_main (7 / 10) xnOnePoint)
    W_o_main (7 / 10) m_o_main (fun n => outerV (xnOnePoint n) (xnOnePoint n))

/-! ### Basic facts about `softmax` -/

lemma eps32_pos : (0 : ℝ) < eps32 := by norm_num [eps32]

lemma exp_sum_pos {K : ℕ} (x : Fin (K + 1) → ℝ) :
    0 < ∑ j, Real.exp (x j - maxV x) :=
  Finset.sum_pos (fun _ _ => Real.exp_pos _) ⟨0, Finset.mem_univ 0⟩

lemma one_le_exp_sum {K : ℕ} (x : Fin (K + 1) → ℝ) :
    1 ≤ ∑ j, Real.exp (x j - maxV x) := by
  obtain ⟨i0, _, hi0⟩ :=
    Finset.exists_mem_eq_sup' (⟨0, Finset.mem_univ 0⟩ :
      (Finset.univ : Finset (Fin (K + 1))).Nonempty) x
  have h1 : Real.exp (x i0 - maxV x) = 1 := by
    rw [maxV, hi0, sub_self, Real.exp_zero]
  calc (1 : ℝ) = Real.exp (x i0 - maxV x) := h1.symm
    _ ≤ ∑ j, Real.exp (x j - maxV x) :=
        Finset.single_le_sum
          (fun (j : Fin (K + 1)) (_ : j ∈ Finset.univ) =>
            (Real.exp_pos (x j - maxV x)).le)
          (Finset.mem_univ i0)

lemma softmax_pos {K : ℕ} (x : Fin (K + 1) → ℝ) (i : Fin (K + 1)) :
    0 < softmax x i := by
  unfold softmax
  have h1 : 0 < Real.exp (x i - maxV x) + eps32 :=
    add_pos (Real.exp_pos _) eps32_pos
  have h2 : 0 < (∑ j, Real.exp (x j - maxV x)) + eps32 :=
    add_pos (exp_sum_pos x) eps32_pos
  exact div_pos h1 h2

lemma softmax_sum_eq {K : ℕ} (x : Fin (K + 1) → ℝ) :
    ∑ i, softmax x i =
      ((∑ j, Real.exp (x j - maxV x)) + (K + 1) * eps32) /
        ((∑ j, Real.exp (x j - maxV x)) + eps32) := by
  unfold softmax
  rw [← Finset.sum_div]
  congr 1
  rw [Finset.sum_add_distrib, Finset.sum_const, Finset.card_univ,
    Fintype.card_fin]
  ring

lemma softmax_sum_bounds {K : ℕ} (x : Fin (K + 1) → ℝ) :
    1 ≤ ∑ i, softmax x i ∧ ∑ i, softmax x i ≤ 1 + K * eps32 := by
  rw [softmax_sum_eq]
  set S := ∑ j, Real.exp (x j - maxV x) with hS
  have hS1 : 1 ≤ S := one_le_exp_sum x
  have hpos : 0 < S + eps32 := by
    have := eps32_pos; linarith
  have hKe : (0 : ℝ) ≤ (K : ℝ) * eps32 :=
    mul_nonneg (Nat.cast_nonneg K) eps32_pos.le
  constructor
  · rw [le_div_iff₀ hpos]
    linarith
  · rw [div_le_iff₀ hpos]
    nlinarith [eps32_pos]

lemma maxV_add_const {K : ℕ} (c : ℝ) (y : Fin (K + 1) → ℝ) :
    maxV (fun i => c + y i) = c + maxV y := by
  unfold maxV
  apply le_antisymm
  · exact Finset.sup'_le _ _ fun i _ =>
      add_le_add_left (Finset.le_sup' y (Finset.mem_univ i)) c
  · obtain ⟨i0, _, hi0⟩ :=
      Finset.exists_mem_eq_sup' (⟨0, Finset.mem_univ 0⟩ :
        (Finset.univ : Finset (Fin (K + 1))).Nonempty) y
    rw [hi0]
    exact Finset.le_sup' (fun i => c + y i) (Finset.mem_univ i0)

lemma softmax_shift {K : ℕ} (c : ℝ) (y : Fin (K + 1) → ℝ) :
    softmax (fun i => c + y i) = softmax y := by
  funext i
  unfold softmax
  rw [maxV_add_const]
  have harg : ∀ j : Fin (K + 1), c + y j - (c + maxV y) = y j - maxV y :=
    fun j => by ring
  simp only [harg]

/-! ### Claim theorems -/

/-- C10 (confirmed): every entry produced by `update_lambda_phi` is
strictly positive — each softmax numerator is the positive quantity
`exp(score - max) + eps32` over a positive denominator — so the entropy
term `log(lambda_phi[:, k])` inside `elbo` (line 212) never takes the
logarithm of zero; `exp (log φ) = φ` witnesses that the logarithm is
genuinely inverted by `exp` there. -/
theorem claim_C10_phi_strictly_positive (psi : ℝ → ℝ) {N K : ℕ}
    (lambda_pi : Fin (K + 1) → ℝ) (lambda_m : Fin (K + 1) → Fin 2 → ℝ)
    (lambda_nu : Fin (K + 1) → ℝ)
    (lambda_W : Fin (K + 1) → Fin 2 → Fin 2 → ℝ)
    (lambda_beta : Fin (K + 1) → ℝ) (xn : Fin N → Fin 2 → ℝ)
    (n : Fin N) (k : Fin (K + 1)) :
    0 < update_lambda_phi psi lambda_pi lambda_m lambda_nu lambda_W
        lambda_beta xn n k ∧
      Real.exp (Real.log (update_lambda_phi psi lambda_pi lambda_m
          lambda_nu lambda_W lambda_beta xn n k)) =
        update_lambda_phi psi lambda_pi lambda_m lambda_nu lambda_W
          lambda_beta xn n k := by
  have h : 0 < update_lambda_phi psi lambda_pi lambda_m lambda_nu lambda_W
      lambda_beta xn n k := softmax_pos _ k
  exact ⟨h, Real.exp_log h⟩

/-- C8 (code bug): the program performs no validation of `K` at all.  With
the default warm-start initialization and `K = 1`, the Python scalar
division `0.1 / (K - 1)` inside `init_kmeans` raises `ZeroDivisionError` —
a crash during initialization, after the dataset has been loaded, not a
configuration error reported before any computation starts (and with
`--randomInit` a `K = 1` run proceeds with no rejection whatsoever). -/
theorem claim_C8_K1_fails_inside_init :
    init_kmeans 1 1 (fun _ => 0) = none := rfl

/-- C3 (code bug): evaluated at the program's own hard-coded priors
(`W_o = [[20, 30], [25, 40]]`, `m_o = 0`, `beta_o = 0.7`, lines 262–266)
on the one-point dataset `x = (0, 0)` with responsibility 1, the matrix
`lambda_W[0]` produced by the sweep's `update_lambda_W` is exactly `W_o`,
whose `(0,1)` entry is `30` while its `(1,0)` entry is `25`: `lambda_W[k]`
is not symmetric, contradicting the claimed invariant.  The defect is the
asymmetric hard-coded prior `W_o`, a slip given that a Wishart scale prior
(and the spec's own data model) requires a symmetric positive-definite
matrix. -/
theorem claim_C3_lambda_W_not_symmetric :
    lambda_W_OnePoint 0 0 1 = 30 ∧ lambda_W_OnePoint 0 1 0 = 25 ∧
      ¬ lambda_W_OnePoint 0 0 1 = lambda_W_OnePoint 0 1 0 := by
  refine ⟨?_, ?_, ?_⟩ <;>
    norm_num [lambda_W_OnePoint, update_lambda_W2, update_lambda_m,
      update_lambda_beta, Nks, outerV, W_o_main, m_o_main, phiOnePoint,
      xnOnePoint]

/-- C9 (confirmed): after a sweep, `lambda_pi[k] - alpha_o[k]`,
`lambda_beta[k] - beta_o` and `lambda_nu[k] - nu_o` all equal the expected
membership count `Nk = Σ_n lambda_phi[n, k]` taken over the pre-update
responsibility matrix (updates 1–3 all consume `s.lambda_phi` before
update 6 overwrites it), and this common value is non-negative whenever
`lambda_phi` is entrywise non-negative. -/
theorem claim_C9_common_membership_count (psi : ℝ → ℝ) {N K : ℕ}
    (alpha_o : Fin (K + 1) → ℝ) (beta_o nu_o : ℝ) (m_o : Fin 2 → ℝ)
    (W_o : Fin 2 → Fin 2 → ℝ) (xn : Fin N → Fin 2 → ℝ)
    (s : VState N (K + 1)) (k : Fin (K + 1)) :
    ((cavi_sweep psi alpha_o beta_o nu_o m_o W_o xn s).lambda_pi k -
        alpha_o k = Nks s.lambda_phi k) ∧
      ((cavi_sweep psi alpha_o beta_o nu_o m_o W_o xn s).lambda_beta k -
        beta_o = Nks s.lambda_phi k) ∧
      ((cavi_sweep psi alpha_o beta_o nu_o m_o W_o xn s).lambda_nu k -
        nu_o = Nks s.lambda_phi k) ∧
      ((∀ n j, 0 ≤ s.lambda_phi n j) → 0 ≤ Nks s.lambda_phi k) := by
  refine ⟨?_, ?_, ?_, fun h => Finset.sum_nonneg fun n _ => h n k⟩ <;>
    simp [cavi_sweep, update_lambda_pi, update_lambda_beta,
      update_lambda_nu, Nks]

/-- Witness for C9 at a concrete one-point, one-component state. -/
theorem claim_C9_witness :
    ((cavi_sweep digamma (fun _ => 1) 1 3 (fun _ => 0) (fun _ _ => 0)
          (fun _ _ => 0)
          (⟨fun _ => 0, fun _ => 0, fun _ => 0, fun _ _ => 0,
            fun _ _ _ => 0, fun _ _ => 1⟩ : VState 1 (0 + 1))).lambda_pi 0 -
        (fun _ : Fin (0 + 1) => (1 : ℝ)) 0 =
        Nks (fun _ _ => (1 : ℝ) : Fin 1 → Fin (0 + 1) → ℝ) 0) ∧
      0 ≤ Nks (fun _ _ => (1 : ℝ) : Fin 1 → Fin (0 + 1) → ℝ) 0 := by
  constructor
  · exact (claim_C9_common_membership_count digamma (fun _ => 1) 1 3
      (fun _ => 0) (fun _ _ => 0) (fun _ _ => 0)
      ⟨fun _ => 0, fun _ => 0, fun _ => 0, fun _ _ => 0,
        fun _ _ _ => 0, fun _ _ => 1⟩ 0).1
  · exact (claim_C9_common_membership_count digamma (fun _ => 1) 1 3
      (fun _ => 0) (fun _ _ => 0) (fun _ _ => 0)
      ⟨fun _ => 0, fun _ => 0, fun _ => 0, fun _ _ => 0,
        fun _ _ _ => 0, fun _ _ => 1⟩ 0).2.2.2 fun n j => by norm_num

/-- C7 (confirmed): with `maxIterations = 0` the loop body never runs:
the run returns the initial variational state unchanged, an empty ELBO
trace, iteration count 0, and stops because the budget is exhausted —
whatever the dataset, priors, digamma function and ELBO evaluator are. -/
theorem claim_C7_zero_budget (psi : ℝ → ℝ) {N K : ℕ}
    (alpha_o : Fin (K + 1) → ℝ) (beta_o nu_o : ℝ) (m_o : Fin 2 → ℝ)
    (W_o : Fin 2 → Fin 2 → ℝ) (xn : Fin N → Fin 2 → ℝ)
    (eV : VState N (K + 1) → ℝ) (s0 : VState N (K + 1)) :
    caviRun (cavi_sweep psi alpha_o beta_o nu_o m_o W_o xn) eV 0 s0 =
      ⟨s0, [], 0, .budgetExhausted⟩ := rfl

/-- C6 counterexample: the claim that the inline update-6 terms and the
`NIW_sufficient_statistics` entries "are the same functions" is false for
the first (precision-weighted mean) term as soon as `lambda_W[k]` is not
symmetric.  At `nu = 1`, `W = [[1, 1], [0, 1]]` (invertible,
`det = 1`), `m = (1, 0)` and `x = (0, 1)`, the inline computation
`m @ (nu * inv(W)) @ x` gives `-1` while `(helper.t0) @ x =
(nu * inv(W) @ m) @ x` gives `0`. -/
theorem claim_C6_counterexample :
    phiT1 (fun d => if d = 0 then 1 else 0) 1
        (fun i j => if i = 1 ∧ j = 0 then 0 else 1)
        (fun d => if d = 0 then 0 else 1) ≠
      dotV
        (NIW_sufficient_statistics digamma 1
          (fun i j => if i = 1 ∧ j = 0 then 0 else 1)
          (fun d => if d = 0 then 1 else 0) 1).t0
        (fun d => if d = 0 then 0 else 1) := by
  norm_num [phiT1, NIW_sufficient_statistics, dotV, matVec, smulM, inv2,
    det2, Fin.sum_univ_two]

/-- C6 as amended: of the four per-component expectation terms computed
inline by `update_lambda_phi` (lines 136–148), the second, third and
fourth always coincide with the corresponding `NIW_sufficient_statistics`
entries (lines 162–169), for every `psi`, `lambda_nu`, `lambda_W`,
`lambda_m`, `lambda_beta` and data point; the first term coincides with
`t0 @ x` exactly under the additional hypothesis that `lambda_W[k]` is
symmetric (in general the inline code computes `m @ inv(W) @ x` whereas
the helper packages `inv(W) @ m`, which transposes `inv(W)`). -/
theorem claim_C6_amended (psi : ℝ → ℝ) (nu beta : ℝ) (m x : Fin 2 → ℝ)
    (W : Fin 2 → Fin 2 → ℝ) :
    (W 0 1 = W 1 0 →
      phiT1 m nu W x =
        dotV (NIW_sufficient_statistics psi nu W m beta).t0 x) ∧
      (-phiT2 nu W x =
        traceM (matMul (NIW_sufficient_statistics psi nu W m beta).t1
          (outerV x x))) ∧
      (-phiT3 m nu W beta =
        (NIW_sufficient_statistics psi nu W m beta).t2) ∧
      (phiT4 psi nu W = (NIW_sufficient_statistics psi nu W m beta).t3) := by
  have h2 : ((1 : Fin 2) = 0) = False := by
    simp [Fin.ext_iff]
  refine ⟨fun h => ?_, ?_, ?_, ?_⟩
  · simp only [phiT1, NIW_sufficient_statistics, dotV, matVec, smulM,
      inv2, det2, Fin.sum_univ_two, h2, if_true, if_false, ite_true,
      ite_false]
    rw [h]; ring
  · simp only [phiT2, NIW_sufficient_statistics, matMul, traceM, smulM,
      outerV, inv2, det2, Fin.sum_univ_two, h2, if_true, if_false,
      ite_true, ite_false]
    ring
  · simp only [phiT3, NIW_sufficient_statistics, dotV, vecMat, smulM,
      inv2, det2, Fin.sum_univ_two, h2, if_true, if_false, ite_true,
      ite_false]
    ring
  · rfl

/-- Witness for C6 as amended, at the symmetric matrix `W = [[2, 1], [1, 2]]`,
`nu = 1`, `beta = 1`, `m = x = (1, 1)`. -/
theorem claim_C6_witness :
    (phiT1 (fun _ => 1) 1 (fun i j => if i = j then 2 else 1)
        (fun _ => 1) =
      dotV
        (NIW_sufficient_statistics digamma 1
          (fun i j => if i = j then 2 else 1) (fun _ => 1) 1).t0
        (fun _ => 1)) ∧
      (-phiT3 (fun _ => 1) 1 (fun i j => if i = j then 2 else 1) 1 =
        (NIW_sufficient_statistics digamma 1
          (fun i j => if i = j then 2 else 1) (fun _ => 1) 1).t2) := by
  constructor
  · exact (claim_C6_amended digamma 1 1 (fun _ => 1) (fun _ => 1)
      (fun i j => if i = j then 2 else 1)).1 (by norm_num)
  · exact (claim_C6_amended digamma 1 1 (fun _ => 1) (fun _ => 1)
      (fun i j => if i = j then 2 else 1)).2.2.1

lemma init_kmeans_rows (K N : ℕ) (hK : 2 ≤ K) (labels : Fin N → Fin K) :
    ∃ phi0, init_kmeans K N labels = some phi0 ∧
      ∀ n, (∀ k, 0 ≤ phi0 n k) ∧ ∑ k, phi0 n k = 1 := by
  have hK1 : K ≠ 1 := by omega
  have hKr : (2 : ℝ) ≤ (K : ℝ) := by exact_mod_cast hK
  have hKne : ((K : ℝ) - 1) ≠ 0 := by linarith
  unfold init_kmeans
  rw [if_neg hK1]
  refine ⟨_, rfl, fun n => ⟨fun k => ?_, ?_⟩⟩
  · split
    · norm_num
    · have : (0 : ℝ) < (K : ℝ) - 1 := by linarith
      positivity
  · calc ∑ k : Fin K,
          (if k = labels n then (9 : ℝ) / 10 else 1 / 10 / ((K : ℝ) - 1))
        = ∑ k : Fin K, ((1 : ℝ) / 10 / ((K : ℝ) - 1) +
            (if k = labels n then
              (9 : ℝ) / 10 - 1 / 10 / ((K : ℝ) - 1) else 0)) := by
          refine Finset.sum_congr rfl fun k _ => ?_
          split <;> ring
      _ = (K : ℝ) * ((1 : ℝ) / 10 / ((K : ℝ) - 1)) +
            ((9 : ℝ) / 10 - 1 / 10 / ((K : ℝ) - 1)) := by
          rw [Finset.sum_add_distrib, Finset.sum_const, Finset.card_univ,
            Fintype.card_fin, Finset.sum_ite_eq' Finset.univ (labels n)]
          simp [nsmul_eq_mul]
      _ = 1 := by field_simp; ring

/-- C2 as amended: each row of `lambda_phi` is a probability vector up to
the softmax epsilon — at k-means initialization (any `K ≥ 2`) the rows are
non-negative and sum to exactly 1, and after every `update_lambda_phi`
call the entries are strictly positive and the row sum lies within
`(K-1) * eps32` above 1, hence within `1e-6` of 1 whenever the number of
components is at most 9 (`K' + 1` components here, `K' ≤ 8`), which covers
the program's default `K = 8`.  The original claim's unconditional `1e-6`
bound fails for `K ≥ 10`: see the counterexample. -/
theorem claim_C2_amended (K N : ℕ) (hK : 2 ≤ K) (labels : Fin N → Fin K)
    (psi : ℝ → ℝ) (K' N' : ℕ) (hK' : K' ≤ 8) (lpi : Fin (K' + 1) → ℝ)
    (lm : Fin (K' + 1) → Fin 2 → ℝ) (lnu : Fin (K' + 1) → ℝ)
    (lW : Fin (K' + 1) → Fin 2 → Fin 2 → ℝ) (lbeta : Fin (K' + 1) → ℝ)
    (xn : Fin N' → Fin 2 → ℝ) :
    (∃ phi0, init_kmeans K N labels = some phi0 ∧
      ∀ n, (∀ k, 0 ≤ phi0 n k) ∧ ∑ k, phi0 n k = 1) ∧
    ∀ n, (∀ k, 0 < update_lambda_phi psi lpi lm lnu lW lbeta xn n k) ∧
      |(∑ k, update_lambda_phi psi lpi lm lnu lW lbeta xn n k) - 1| ≤
        1 / 1000000 := by
  refine ⟨init_kmeans_rows K N hK labels, fun n => ⟨fun k => ?_, ?_⟩⟩
  · exact softmax_pos _ k
  · obtain ⟨h1, h2⟩ := softmax_sum_bounds
      (fun k => phiScore psi lpi lm lnu lW lbeta (xn n) k)
    have hc : (K' : ℝ) ≤ 8 := by exact_mod_cast hK'
    have heps : (K' : ℝ) * eps32 ≤ 1 / 1000000 := by
      have h8 : (K' : ℝ) * eps32 ≤ 8 * eps32 := by
        have := eps32_pos; nlinarith
      have : (8 : ℝ) * eps32 ≤ 1 / 1000000 := by rw [eps32]; norm_num
      linarith
    rw [abs_le]
    unfold update_lambda_phi
    constructor <;> linarith

/-- C2 counterexample: the claim's unconditional "each row sums to 1
within 1e-6" is false.  With `K = 10` components at the state
`lambda_pi = 1`, `lambda_nu = 1`, `lambda_beta = 1`, `lambda_W = I`
(all components identical there), `lambda_m[0] = (0,0)`,
`lambda_m[k] = (-20, 0)` for `k ≥ 1`, and the single data point
`x = (10, 0)`, the softmax scores are `s` for `k = 0` and `s - 400`
otherwise, so the row of `lambda_phi` produced by `update_lambda_phi`
sums to `(S + 10*eps32) / (S + eps32)` with `S = 1 + 9*exp(-400)`,
which exceeds `1 + 1e-6` (the epsilons added to the ten numerators
outweigh the single epsilon of the shared denominator). -/
lemma softmax_sum_gap :
    1 + 1 / 1000000 <
      ∑ k, softmax
        (fun k : Fin (9 + 1) => if k = 0 then (0 : ℝ) else -400) k := by
  have hmax :
      maxV (fun k : Fin (9 + 1) => if k = 0 then (0 : ℝ) else -400) = 0 := by
    apply le_antisymm
    · apply Finset.sup'_le
      intro k _
      split <;> norm_num
    · have h0 := Finset.le_sup'
        (fun k : Fin (9 + 1) => if k = 0 then (0 : ℝ) else -400)
        (Finset.mem_univ (0 : Fin (9 + 1)))
      have h1 : (if (0 : Fin (9 + 1)) = 0 then (0 : ℝ) else -400) = 0 := by
        norm_num
      rw [h1] at h0
      exact h0
  have hsum_exp :
      (∑ j, Real.exp
        ((fun k : Fin (9 + 1) => if k = 0 then (0 : ℝ) else -400) j -
          maxV (fun k : Fin (9 + 1) => if k = 0 then (0 : ℝ) else -400))) =
      1 + 9 * Real.exp (-400) := by
    rw [hmax]
    simp only [sub_zero, apply_ite Real.exp, Real.exp_zero]
    rw [Fin.sum_univ_succ]
    simp [Fin.succ_ne_zero, Finset.sum_const, Finset.card_univ]
  rw [softmax_sum_eq, hsum_exp]
  have hE0 : 0 < Real.exp (-400) := Real.exp_pos _
  have hE : Real.exp (-400) ≤ 1 / 401 := by
    have h400 : (401 : ℝ) ≤ Real.exp 400 := by
      have := Real.add_one_le_exp (400 : ℝ)
      linarith
    rw [Real.exp_neg]
    calc (Real.exp 400)⁻¹ ≤ (401 : ℝ)⁻¹ := inv_anti₀ (by norm_num) h400
      _ = 1 / 401 := by norm_num
  have hpos : 0 < 1 + 9 * Real.exp (-400) + eps32 := by
    have := eps32_pos; linarith
  rw [lt_div_iff₀ hpos, eps32]
  push_cast
  nlinarith [hE, hE0]

theorem claim_C2_counterexample :
    1 + 1 / 1000000 <
      ∑ k, @update_lambda_phi digamma 1 9
        (fun _ => 1)
        (fun k d => if k = 0 then 0 else if d = 0 then -20 else 0)
        (fun _ => 1)
        (fun _ i j => if i = j then 1 else 0)
        (fun _ => 1)
        (fun _ d => if d = 0 then 10 else 0)
        0 k := by
  have h2 : ((1 : Fin 2) = 0) = False := by simp [Fin.ext_iff]
  have h2' : ((0 : Fin 2) = 1) = False := by simp [Fin.ext_iff]
  have hscore : ∀ k : Fin (9 + 1),
      @phiScore digamma (9 + 1) (fun _ => 1)
          (fun k d => if k = 0 then 0 else if d = 0 then -20 else 0)
          (fun _ => 1) (fun _ i j => if i = j then 1 else 0) (fun _ => 1)
          (fun d => if d = 0 then 10 else 0) k =
        @phiScore digamma (9 + 1) (fun _ => 1)
          (fun k d => if k = 0 then 0 else if d = 0 then -20 else 0)
          (fun _ => 1) (fun _ i j => if i = j then 1 else 0) (fun _ => 1)
          (fun d => if d = 0 then 10 else 0) 0 +
          (if k = 0 then 0 else -400) := by
    intro k
    by_cases hk : k = 0
    · subst hk; simp
    · simp only [phiScore, dirichlet_expectation, phiT1, phiT2, phiT3,
        phiT4, dotV, matVec, vecMat, matMul, traceM, smulM, outerV, inv2,
        det2, Fin.sum_univ_two, h2, h2', if_true, if_false, ite_true,
        ite_false, if_neg hk]
      ring
  have hupdate : @update_lambda_phi digamma 1 9
      (fun _ => 1)
      (fun k d => if k = 0 then 0 else if d = 0 then -20 else 0)
      (fun _ => 1)
      (fun _ i j => if i = j then 1 else 0)
      (fun _ => 1)
      (fun _ d => if d = 0 then 10 else 0)
      0 =
      softmax (fun k : Fin (9 + 1) =>
        @phiScore digamma (9 + 1) (fun _ => 1)
          (fun k d => if k = 0 then 0 else if d = 0 then -20 else 0)
          (fun _ => 1) (fun _ i j => if i = j then 1 else 0) (fun _ => 1)
          (fun d => if d = 0 then 10 else 0) 0 +
          (if k = 0 then 0 else -400)) :=
    congrArg softmax (funext hscore)
  rw [hupdate, softmax_shift]
  exact softmax_sum_gap

/-- Witness for C2 as amended at `K = 2`, one data point, one component. -/
theorem claim_C2_witness :
    (∃ phi0, init_kmeans 2 1 (fun _ => 0) = some phi0 ∧
      ∀ n, (∀ k, 0 ≤ phi0 n k) ∧ ∑ k, phi0 n k = 1) ∧
    ∀ n, (∀ k, 0 < @update_lambda_phi digamma 1 0 (fun _ => 1)
          (fun _ _ => 0) (fun _ => 1) (fun _ i j => if i = j then 1 else 0)
          (fun _ => 1) (fun _ _ => 0) n k) ∧
      |(∑ k, @update_lambda_phi digamma 1 0 (fun _ => 1) (fun _ _ => 0)
          (fun _ => 1) (fun _ i j => if i = j then 1 else 0) (fun _ => 1)
          (fun _ _ => 0) n k) - 1| ≤ 1 / 1000000 :=
  claim_C2_amended 2 1 (by norm_num) (fun _ => 0) digamma 0 1
    (by norm_num) (fun _ => 1) (fun _ _ => 0) (fun _ => 1)
    (fun _ i j => if i = j then 1 else 0) (fun _ => 1) (fun _ _ => 0)

lemma list_range_map_sum (N : ℕ) (f : ℕ → ℝ) :
    ((List.range N).map f).sum = ∑ n ∈ Finset.range N, f n := by
  induction N with
  | zero => simp
  | succ n ih =>
    rw [List.range_succ, List.map_append, List.sum_append,
      Finset.sum_range_succ, ih]
    simp

lemma foldlM_npAdd_two (phi : ℕ → ℝ) (xxt : ℕ → NpArr)
    (hx : ∀ n, (xxt n).r = 2 ∧ (xxt n).c = 2) :
    ∀ (l : List ℕ) (A : NpArr), A.r = 2 → A.c = 2 →
      l.foldlM (fun a n => npAdd a (npSmul (phi n) (xxt n))) A =
        some ⟨2, 2, fun i j =>
          A.e i j + (l.map (fun n => phi n * (xxt n).e i j)).sum⟩ := by
  intro l
  induction l with
  | nil =>
    intro A hr hc
    obtain ⟨r, c, eA⟩ := A
    simp only at hr hc
    subst hr; subst hc
    simp [List.foldlM]
  | cons n l ih =>
    intro A hr hc
    have hstep : npAdd A (npSmul (phi n) (xxt n)) =
        some ⟨2, 2, fun i j => A.e i j + phi n * (xxt n).e i j⟩ := by
      obtain ⟨hr2, hc2⟩ := hx n
      unfold npAdd npSmul bdim bi
      rw [hr, hc, hr2, hc2]
      norm_num
    rw [List.foldlM_cons, hstep]
    show List.foldlM _ _ l = _
    rw [ih ⟨2, 2, fun i j => A.e i j + phi n * (xxt n).e i j⟩ rfl rfl]
    congr 1
    refine congrArg _ (funext fun i => funext fun j => ?_)
    simp only [List.map_cons, List.sum_cons]
    ring

/-- C4 counterexample: `update_lambda_W` does not implement the claimed
closed form "for arbitrary dimension D".  Its accumulator is the
hard-coded 2x2 zero matrix of line 111, so on a one-point 3-dimensional
dataset numpy raises a broadcasting `ValueError` on
`aux += lambda_phi[n, k] * xn_xnt[n]` (shapes `(2,2)` vs `(3,3)`) and no
matrix at all is produced; in particular the result is not the spec's
closed form. -/
theorem claim_C4_counterexample :
    np_update_lambda_W_k 3 1 (fun _ => 1) 1 (fun _ => 0)
        ⟨3, 3, fun _ _ => 1⟩ 1 (fun _ => 0)
        (fun _ => npOuterV 3 (fun _ => 1) (fun _ => 1)) = none ∧
      ∀ A : NpArr,
        np_update_lambda_W_k 3 1 (fun _ => 1) 1 (fun _ => 0)
          ⟨3, 3, fun _ _ => 1⟩ 1 (fun _ => 0)
          (fun _ => npOuterV 3 (fun _ => 1) (fun _ => 1)) ≠ some A := by
  have h : np_update_lambda_W_k 3 1 (fun _ => 1) 1 (fun _ => 0)
      ⟨3, 3, fun _ _ => 1⟩ 1 (fun _ => 0)
      (fun _ => npOuterV 3 (fun _ => 1) (fun _ => 1)) = none := by
    unfold np_update_lambda_W_k
    simp [List.range_succ, npAdd, npSmul, npZeros, npOuterV, bdim]
  refine ⟨h, fun A hA => ?_⟩
  rw [h] at hA
  exact Option.noConfusion hA

/-- C4 as amended: in the shape-correct case `D = 2` (the only dimension
the 2x2 accumulator of line 111 supports, and the one the program's
hard-coded 2x2 priors produce), `update_lambda_W` computes exactly the
spec's closed form
`W_o + beta_o * outer(m_o, m_o) + Σ_n lambda_phi[n,k] * outer(x_n, x_n)
 - lambda_beta[k] * outer(lambda_m[k], lambda_m[k])`,
for every dataset size `N` and all parameter values; for `D ≠ 2` the
update fails with a numpy shape error instead (see the counterexample). -/
theorem claim_C4_amended (N : ℕ) (phi_k : ℕ → ℝ) (beta_k : ℝ)
    (m_k : ℕ → ℝ) (W_o : NpArr) (beta_o : ℝ) (m_o : ℕ → ℝ)
    (xn : ℕ → ℕ → ℝ) (hr : W_o.r = 2) (hc : W_o.c = 2) :
    ∃ A, np_update_lambda_W_k 2 N phi_k beta_k m_k W_o beta_o m_o
        (fun n => npOuterV 2 (xn n) (xn n)) = some A ∧
      A.r = 2 ∧ A.c = 2 ∧
      ∀ i j, A.e i j =
        spec_lambda_W N phi_k beta_k m_k W_o.e beta_o m_o xn i j := by
  obtain ⟨r, c, eW⟩ := W_o
  simp only at hr hc
  subst hr; subst hc
  unfold np_update_lambda_W_k
  rw [foldlM_npAdd_two phi_k (fun n => npOuterV 2 (xn n) (xn n))
    (fun n => ⟨rfl, rfl⟩) (List.range N) (npZeros 2 2) rfl rfl]
  simp only [Option.bind_eq_bind, Option.some_bind]
  unfold npAdd npSub npOuterV npZeros bdim bi
  norm_num
  intro i j
  simp only [spec_lambda_W, list_range_map_sum]
  ring

/-- Witness for C4 as amended at a one-point dataset with all-ones data
and prior scale. -/
theorem claim_C4_witness :
    ∃ A, np_update_lambda_W_k 2 1 (fun _ => 1) 1 (fun _ => 0)
        ⟨2, 2, fun _ _ => 1⟩ 1 (fun _ => 0)
        (fun _ => npOuterV 2 (fun _ => 1) (fun _ => 1)) = some A ∧
      A.r = 2 ∧ A.c = 2 ∧
      ∀ i j, A.e i j =
        spec_lambda_W 1 (fun _ => 1) 1 (fun _ => 0) (fun _ _ => 1) 1
          (fun _ => 0) (fun _ _ => 1) i j :=
  claim_C4_amended 1 (fun _ => 1) 1 (fun _ => 0) ⟨2, 2, fun _ _ => 1⟩ 1
    (fun _ => 0) (fun _ _ => 1) rfl rfl

lemma caviLoopAux_no_conv {σ : Type*} (sweep : σ → σ) (eV : σ → ℝ)
    (s0 : σ) :
    ∀ (fuel j : ℕ) (lbs : List ℝ),
      (∀ i, 1 ≤ i → j ≤ i → i < j + fuel →
        ¬ |eV (sweep^[i + 1] s0) - eV (sweep^[i] s0)| < THRESHOLD) →
      (caviLoopAux sweep eV fuel (sweep^[j] s0)
          (if j = 0 then none else some (eV (sweep^[j] s0)))
          lbs j).reason = .budgetExhausted ∧
      (caviLoopAux sweep eV fuel (sweep^[j] s0)
          (if j = 0 then none else some (eV (sweep^[j] s0)))
          lbs j).nIters = j + fuel := by
  intro fuel
  induction fuel with
  | zero =>
    intro j lbs _
    exact ⟨rfl, rfl⟩
  | succ fuel ih =>
    intro j lbs h
    rcases Nat.eq_zero_or_pos j with hj | hj
    · subst hj
      rw [if_pos rfl]
      simp only [caviLoopAux]
      rw [if_neg not_false]
      rw [← Function.iterate_succ_apply' sweep 0 s0]
      have := ih 1 (lbs ++ [eV (sweep^[0 + 1] s0)])
        (fun i h1 _ h3 => h i h1 (by omega) (by omega))
      rw [if_neg one_ne_zero] at this
      rw [show (0 : ℕ) + 1 = 1 from rfl]
      exact ⟨this.1, this.2.trans (by omega)⟩
    · have hj0 : j ≠ 0 := by omega
      rw [if_neg hj0]
      simp only [caviLoopAux]
      rw [← Function.iterate_succ_apply' sweep j s0]
      rw [if_neg (h j hj le_rfl (by omega))]
      have := ih (j + 1) (lbs ++ [eV (sweep^[j + 1] s0)])
        (fun i h1 h2 h3 => h i h1 (by omega) (by omega))
      rw [if_neg (Nat.succ_ne_zero j)] at this
      exact ⟨this.1, this.2.trans (by omega)⟩

lemma caviLoopAux_conv_exists {σ : Type*} (sweep : σ → σ) (eV : σ → ℝ)
    (s0 : σ) :
    ∀ (fuel j : ℕ) (lbs : List ℝ),
      (∃ i, 1 ≤ i ∧ j ≤ i ∧ i < j + fuel ∧
        |eV (sweep^[i + 1] s0) - eV (sweep^[i] s0)| < THRESHOLD) →
      (caviLoopAux sweep eV fuel (sweep^[j] s0)
          (if j = 0 then none else some (eV (sweep^[j] s0)))
          lbs j).reason = .converged := by
  intro fuel
  induction fuel with
  | zero =>
    intro j lbs h
    obtain ⟨i, _, h2, h3, _⟩ := h
    omega
  | succ fuel ih =>
    intro j lbs h
    obtain ⟨i, hi1, hi2, hi3, hic⟩ := h
    rcases Nat.eq_zero_or_pos j with hj | hj
    · subst hj
      rw [if_pos rfl]
      simp only [caviLoopAux]
      rw [if_neg not_false]
      rw [← Function.iterate_succ_apply' sweep 0 s0]
      have := ih 1 (lbs ++ [eV (sweep^[0 + 1] s0)])
        ⟨i, hi1, by omega, by omega, hic⟩
      rw [if_neg one_ne_zero] at this
      rw [show (0 : ℕ) + 1 = 1 from rfl]
      exact this
    · have hj0 : j ≠ 0 := by omega
      rw [if_neg hj0]
      simp only [caviLoopAux]
      rw [← Function.iterate_succ_apply' sweep j s0]
      by_cases hc : |eV (sweep^[j + 1] s0) - eV (sweep^[j] s0)| < THRESHOLD
      · rw [if_pos hc]
      · rw [if_neg hc]
        have hij : i ≠ j := fun hh => hc (hh ▸ hic)
        have := ih (j + 1) (lbs ++ [eV (sweep^[j + 1] s0)])
          ⟨i, hi1, by omega, by omega, hic⟩
        rw [if_neg (Nat.succ_ne_zero j)] at this
        exact this

lemma caviLoopAux_conv_props {σ : Type*} (sweep : σ → σ) (eV : σ → ℝ)
    (s0 : σ) :
    ∀ (fuel j : ℕ) (lbs : List ℝ),
      (caviLoopAux sweep eV fuel (sweep^[j] s0)
          (if j = 0 then none else some (eV (sweep^[j] s0)))
          lbs j).reason = .converged →
      2 ≤ (caviLoopAux sweep eV fuel (sweep^[j] s0)
          (if j = 0 then none else some (eV (sweep^[j] s0)))
          lbs j).nIters ∧
      (caviLoopAux sweep eV fuel (sweep^[j] s0)
          (if j = 0 then none else some (eV (sweep^[j] s0)))
          lbs j).nIters ≤ j + fuel ∧
      |eV (sweep^[(caviLoopAux sweep eV fuel (sweep^[j] s0)
            (if j = 0 then none else some (eV (sweep^[j] s0)))
            lbs j).nIters] s0) -
          eV (sweep^[(caviLoopAux sweep eV fuel (sweep^[j] s0)
            (if j = 0 then none else some (eV (sweep^[j] s0)))
            lbs j).nIters - 1] s0)| < THRESHOLD := by
  intro fuel
  induction fuel with
  | zero =>
    intro j lbs h
    exact absurd h (by simp [caviLoopAux])
  | succ fuel ih =>
    intro j lbs h
    rcases Nat.eq_zero_or_pos j with hj | hj
    · subst hj
      rw [if_pos rfl] at h ⊢
      simp only [caviLoopAux] at h ⊢
      rw [if_neg not_false] at h ⊢
      rw [← Function.iterate_succ_apply' sweep 0 s0] at h ⊢
      simp only [Nat.succ_eq_add_one, Nat.zero_add] at h ⊢
      have hih := ih 1 (lbs ++ [eV (sweep^[1] s0)])
      rw [if_neg one_ne_zero] at hih
      obtain ⟨a, b, c⟩ := hih h
      exact ⟨a, by omega, c⟩
    · have hj0 : j ≠ 0 := by omega
      rw [if_neg hj0] at h ⊢
      simp only [caviLoopAux] at h ⊢
      rw [← Function.iterate_succ_apply' sweep j s0] at h ⊢
      simp only [Nat.succ_eq_add_one] at h ⊢
      by_cases hc : |eV (sweep^[j + 1] s0) - eV (sweep^[j] s0)| < THRESHOLD
      · rw [if_pos hc] at h ⊢
        dsimp only
        refine ⟨by omega, by omega, ?_⟩
        rw [Nat.add_sub_cancel]
        exact hc
      · rw [if_neg hc] at h ⊢
        have hih := ih (j + 1) (lbs ++ [eV (sweep^[j + 1] s0)])
        rw [if_neg (Nat.succ_ne_zero j)] at hih
        obtain ⟨a, b, c⟩ := hih h
        exact ⟨a, by omega, c⟩

/-- C5 (confirmed): the run terminates through the convergence branch
exactly when some sweep index `i` with `i > 0` satisfies
`|ELBO_i - ELBO_{i-1}| < THRESHOLD` within the budget (where `ELBO_i` is
the value computed after the `(i+1)`-st sweep, `i` counted from 0 as in
`for i in range(MAX_ITERS)`); the loop never terminates by convergence on
the first sweep (`maxIters ≤ 1` always exhausts the budget, and a
converged run has made at least 2 sweeps, the last one satisfying the
threshold condition); and when the condition never holds the loop stops
only on reaching `maxIters`, with iteration count exactly `maxIters`.
Stated for the generic loop `caviRun`, hence for the program's sweep and
ELBO evaluator in particular. -/
theorem claim_C5_convergence_policy {σ : Type*} (sweep : σ → σ)
    (eV : σ → ℝ) (M : ℕ) (s0 : σ) :
    ((caviRun sweep eV M s0).reason = .converged ↔
      ∃ i, 1 ≤ i ∧ i < M ∧
        |eV (sweep^[i + 1] s0) - eV (sweep^[i] s0)| < THRESHOLD) ∧
    (M ≤ 1 → (caviRun sweep eV M s0).reason = .budgetExhausted) ∧
    ((∀ i, 1 ≤ i → i < M →
        ¬ |eV (sweep^[i + 1] s0) - eV (sweep^[i] s0)| < THRESHOLD) →
      (caviRun sweep eV M s0).reason = .budgetExhausted ∧
        (caviRun sweep eV M s0).nIters = M) ∧
    ((caviRun sweep eV M s0).reason = .converged →
      2 ≤ (caviRun sweep eV M s0).nIters ∧
        (caviRun sweep eV M s0).nIters ≤ M ∧
        |eV (sweep^[(caviRun sweep eV M s0).nIters] s0) -
            eV (sweep^[(caviRun sweep eV M s0).nIters - 1] s0)| <
          THRESHOLD) := by
  have hrun : caviRun sweep eV M s0 =
      caviLoopAux sweep eV M (sweep^[0] s0)
        (if (0 : ℕ) = 0 then none else some (eV (sweep^[0] s0))) [] 0 := by
    simp [caviRun]
  have hprops := caviLoopAux_conv_props sweep eV s0 M 0 []
  have hexists := caviLoopAux_conv_exists sweep eV s0 M 0 []
  have hnoconv := caviLoopAux_no_conv sweep eV s0 M 0 []
  rw [hrun]
  refine ⟨⟨fun h => ?_, fun h => ?_⟩, fun hM => ?_, fun h => ?_, fun h => ?_⟩
  · obtain ⟨h2, h3, h4⟩ := hprops h
    refine ⟨(caviLoopAux sweep eV M (sweep^[0] s0)
      (if (0 : ℕ) = 0 then none else some (eV (sweep^[0] s0)))
      [] 0).nIters - 1, by omega, by omega, ?_⟩
    rw [show (caviLoopAux sweep eV M (sweep^[0] s0)
      (if (0 : ℕ) = 0 then none else some (eV (sweep^[0] s0)))
      [] 0).nIters - 1 + 1 =
      (caviLoopAux sweep eV M (sweep^[0] s0)
        (if (0 : ℕ) = 0 then none else some (eV (sweep^[0] s0)))
        [] 0).nIters by omega]
    exact h4
  · obtain ⟨i, h1, h2, hc⟩ := h
    exact hexists ⟨i, h1, by omega, by omega, hc⟩
  · cases hrea : (caviLoopAux sweep eV M (sweep^[0] s0)
        (if (0 : ℕ) = 0 then none else some (eV (sweep^[0] s0)))
        [] 0).reason with
    | converged =>
      obtain ⟨h2, h3, _⟩ := hprops hrea
      omega
    | budgetExhausted => rfl
  · obtain ⟨ha, hb⟩ := hnoconv fun i h1 _ h3 => h i h1 (by omega)
    exact ⟨ha, hb.trans (Nat.zero_add M)⟩
  · obtain ⟨h2, h3, h4⟩ := hprops h
    exact ⟨h2, by omega, h4⟩

/-- Witness for C5 at the two-iteration run over the successor map with
the identity ELBO evaluator, whose consecutive ELBO gap is 1. -/
theorem claim_C5_witness :
    (caviRun Nat.succ (fun n => (n : ℝ)) 2 0).reason = .budgetExhausted ∧
      (caviRun Nat.succ (fun n => (n : ℝ)) 2 0).nIters = 2 := by
  apply (claim_C5_convergence_policy Nat.succ (fun n => (n : ℝ)) 2 0).2.2.1
  intro i h1 h2
  have hi : i = 1 := by omega
  subst hi
  rw [show Nat.succ^[1 + 1] 0 = 2 from rfl, show Nat.succ^[1] 0 = 1 from rfl,
    THRESHOLD]
  norm_num

end

end GMMCavi
